import Mathlib

/-!
# CasADi runtime reduction kernel and integration tools

A shallow embedding of

* `src/casadi/core/runtime/casadi_mmax.hpp` (the `casadi_mmax` template), and
* the entry points declared in `src/casadi/core/misc/integration_tools.hpp`
  (`collocationPoints`, `collocationInterpolators`, `simpleRK`), whose bodies are
  not part of the sources and are modelled from the specification.

Definitions come first, theorems afterwards.
-/

namespace Casadi

/-! ## Values and pointers -/

/-- NaN-free values of the element type `T1 = double`: `⊥` is minus infinity, `⊤` is plus
infinity, and the finite values are rationals (every finite double is a dyadic rational).
Comparison and binary maximum of NaN-free doubles are exact, so no rounding is involved;
the two signed zeros compare equal and are identified. -/
abbrev Value : Type := WithBot (WithTop ℚ)

/-- The literal `-std::numeric_limits<double>::infinity()`. -/
def negInf : Value := ⊥

/-- A `const T1*` argument: `none` is the null pointer, `some a` is a non-null pointer,
`a i` being the value read by `x[i]`. -/
abbrev Ptr : Type := Option (Nat → Value)

/-- The C function `fmax` on NaN-free values: the binary maximum. -/
def fmax (a b : Value) : Value := max a b

/-- Modelled from the spec: `casadi_vfmax` is called by `casadi_mmax` but its body is not
among the sources; it is the left fold of the binary maximum over `x[0..n-1]` starting from
`r`, that is the loop `for (i=0; i<n; ++i) r = fmax(r, x[i]); return r;`. A non-positive `n`
runs the loop zero times. -/
def casadi_vfmax (x : Nat → Value) (n : Int) (r : Value) : Value :=
  (List.range n.toNat).foldl (fun acc i => fmax acc (x i)) r

/-- The function `casadi_mmax` of `casadi_mmax.hpp`:
```
T1 r = is_dense ? -std::numeric_limits<double>::infinity() : 0;
if (!x) return r;
return casadi_vfmax(x, n, r);
```
-/
def casadi_mmax (x : Ptr) (n : Int) (is_dense : Int) : Value :=
  let r : Value := if is_dense ≠ 0 then negInf else 0
  match x with
  | none => r
  | some a => casadi_vfmax a n r

/-- The entries `x[0], ..., x[n-1]` read by the reduction, in index order. -/
def entries (x : Nat → Value) (n : Int) : List Value :=
  (List.range n.toNat).map x

/-- A sample array with `x[0] = -2`, `x[1] = -1` and `x[i] = 5` for `i ≥ 2`. -/
def sampleArray : Nat → Value :=
  fun i => if i = 0 then ((-2 : ℚ) : Value) else if i = 1 then ((-1 : ℚ) : Value) else ((5 : ℚ) : Value)

/-- The sample array with its first two entries exchanged: `x[0] = -1`, `x[1] = -2`, and
`x[i] = 7` for `i ≥ 2`. -/
def sampleArraySwapped : Nat → Value :=
  fun i => if i = 0 then ((-1 : ℚ) : Value) else if i = 1 then ((-2 : ℚ) : Value) else ((7 : ℚ) : Value)

/-! ## Integration tools (`integration_tools.hpp`)

The header only declares these entry points; their bodies are not among the sources. -/

/-- The enumeration `enum CollocationPoints {LEGENDRE, RADAU}` of the header. -/
inductive CollocationPoints where
  | LEGENDRE
  | RADAU
  deriving DecidableEq, Repr

/-- Modelled from the spec: the error taxonomy of the integration tools (no error type is
declared in the header). -/
inductive Error where
  | UnknownSchemeError
  | RootFindingError
  | SignatureMismatchError
  | UnsupportedOrderError
  | ConvergenceError
  | UnknownBackendError
  deriving DecidableEq, Repr

/-- Modelled from the spec: recognition of the scheme name accepted by `collocationPoints`
(documented in the header as `'radau' or 'legendre'`); any other name is an
`UnknownSchemeError`. -/
def schemeOfName (scheme : String) : Except Error CollocationPoints :=
  if scheme = "radau" then Except.ok CollocationPoints.RADAU
  else if scheme = "legendre" then Except.ok CollocationPoints.LEGENDRE
  else Except.error Error.UnknownSchemeError

/-- Modelled from the spec: the body of `collocationPoints(order, scheme)` is not among the
sources. The scheme name selects the family; the root computation of the selected family
(closed-form constants or Newton iteration, not described numerically by the spec) is the
parameter `roots`, which yields the point set or `none` when the root search does not
converge (`RootFindingError`). -/
def collocationPoints {K : Type} (roots : CollocationPoints → Int → Option (List K))
    (order : Int) (scheme : String) : Except Error (List K) :=
  match schemeOfName scheme with
  | Except.error e => Except.error e
  | Except.ok s =>
    match roots s order with
    | none => Except.error Error.RootFindingError
    | some pts => Except.ok pts

/-- The `i`-th Lagrange basis polynomial over the nodes `t`, evaluated at `z`:
the product over `j ≠ i` of `(z - t_j) / (t_i - t_j)`. -/
def lagrangeBasis {K : Type} [Field K] (t : List K) (i : Nat) (z : K) : K :=
  (((List.range t.length).filter (fun j => j ≠ i)).map
    (fun j => (z - t.getD j 0) / (t.getD i 0 - t.getD j 0))).prod

/-- The derivative of the `i`-th Lagrange basis polynomial over the nodes `t`, evaluated at
`z`, by the product rule: the sum over `m ≠ i` of `1 / (t_i - t_m)` times the product over
`k ≠ i, k ≠ m` of `(z - t_k) / (t_i - t_k)`. -/
def lagrangeBasisDeriv {K : Type} [Field K] (t : List K) (i : Nat) (z : K) : K :=
  (((List.range t.length).filter (fun m => m ≠ i)).map
    (fun m => 1 / (t.getD i 0 - t.getD m 0) *
      (((List.range t.length).filter (fun k => k ≠ i ∧ k ≠ m)).map
        (fun k => (z - t.getD k 0) / (t.getD i 0 - t.getD k 0))).prod)).sum

/-- Modelled from the spec: the body of `collocationInterpolators(tau_root, C, D)` is not
among the sources. The point set is augmented with the anchor `0`, giving the nodes
`t_0 = 0, t_1, ..., t_order`; `C[j][i]` is the derivative of the `i`-th Lagrange basis
polynomial at `t_j` and `D[i]` is the `i`-th basis polynomial evaluated at `1`. The result
is the pair `(C, D)`; both have `order + 1` rows/entries, as documented in the header. -/
def collocationInterpolators {K : Type} [Field K] (tau_root : List K) :
    List (List K) × List K :=
  let t : List K := 0 :: tau_root
  let idx := List.range t.length
  (idx.map (fun j => idx.map (fun i => lagrangeBasisDeriv t i (t.getD j 0))),
   idx.map (fun i => lagrangeBasis t i 1))

/-- A valid point set: `order ≥ 1` reals in `(0, 1]`, strictly increasing (hence distinct). -/
def ValidPointSet {K : Type} [LinearOrderedField K] (tau : List K) : Prop :=
  1 ≤ tau.length ∧ (∀ v ∈ tau, 0 < v ∧ v ≤ 1) ∧ tau.Sorted (· < ·)

/-- The two-point Radau set `1/3, 1`, a valid point set of order 2. -/
def radauOrder2 : List ℚ := [1/3, 1]

/-- A root locator that never converges, used to exercise the scheme dispatch. -/
def noRoots : CollocationPoints → Int → Option (List ℚ) := fun _ _ => none

/-- A Butcher tableau of an explicit Runge-Kutta method: row `j` of `A` holds the
coefficients applied to the earlier stage derivatives `k_0 .. k_(j-1)` (row `0` is empty),
and `b` holds the output weights. -/
structure ButcherTableau (K : Type) where
  A : List (List K)
  b : List K

/-- Modelled from the spec: the closed-form tableaus of the explicit mode of `simpleRK`
(whose body is not among the sources): forward Euler, explicit midpoint, Kutta's third-order
method and the classic fourth-order Runge-Kutta method; no tableau for any other order. -/
def butcherTableau {K : Type} [Field K] (order : Int) : Option (ButcherTableau K) :=
  if order = 1 then some ⟨[[]], [1]⟩
  else if order = 2 then some ⟨[[], [1/2]], [0, 1]⟩
  else if order = 3 then some ⟨[[], [1/2], [-1, 2]], [1/6, 2/3, 1/6]⟩
  else if order = 4 then some ⟨[[], [1/2], [0, 1/2], [0, 0, 1]], [1/6, 1/3, 1/3, 1/6]⟩
  else none

/-- The weighted combination `Σ_m c_m * k_m` of stage derivatives. -/
def stageSum {K V : Type} [Field K] [AddCommGroup V] [Module K V]
    (c : List K) (k : List V) : V :=
  ((c.zip k).map (fun ck => ck.1 • ck.2)).sum

/-- Modelled from the spec: the stage derivatives `k_1 .. k_s` of one explicit step, computed
sequentially, each by evaluating `f` at the current state plus `dt` times a combination of
the earlier stage derivatives. `k` accumulates the stages computed so far. -/
def rkStages {K V P : Type} [Field K] [AddCommGroup V] [Module K V]
    (f : V → P → V) (p : P) (dt : K) (x : V) : List (List K) → List V → List V
  | [], k => k
  | row :: rows, k => rkStages f p dt x rows (k ++ [f (x + dt • stageSum row k) p])

/-- Modelled from the spec: one explicit Runge-Kutta step, combining the stage derivatives
into the next state through the output weights of the tableau. -/
def rkStep {K V P : Type} [Field K] [AddCommGroup V] [Module K V]
    (tab : ButcherTableau K) (f : V → P → V) (p : P) (dt : K) (x : V) : V :=
  x + dt • stageSum tab.b (rkStages f p dt x tab.A [])

/-- Modelled from the spec: the body of `simpleRK(f, N, order)` is not among the sources.
The constructed integrator maps `(x0, p, h)` to `xf` by composing `N` explicit steps of
size `h / N`, the output of each step being the initial state of the next, `p` and the
step size being shared; it fails with `UnsupportedOrderError` when no tableau exists for
the requested order. The two-input/one-output signature of `f` is carried by its type. -/
def simpleRK {K V P : Type} [Field K] [AddCommGroup V] [Module K V]
    (f : V → P → V) (N : Int) (order : Int) : Except Error (V → P → K → V) :=
  match butcherTableau order with
  | none => Except.error Error.UnsupportedOrderError
  | some tab => Except.ok (fun x0 p h => (rkStep tab f p (h / (N : K)))^[N.toNat] x0)

/-! ## The reduction kernel `casadi_mmax` -/

theorem vfmax_eq_foldl (x : Nat → Value) (n : Int) (r : Value) :
    casadi_vfmax x n r = (entries x n).foldl max r := by
  unfold casadi_vfmax entries
  rw [List.foldl_map]
  rfl

theorem foldl_max_init (l : List Value) (r : Value) :
    l.foldl max r = max r (l.foldl max ⊥) := by
  induction l generalizing r with
  | nil => simp
  | cons a t ih =>
    simp only [List.foldl_cons]
    rw [ih (max r a), ih (max ⊥ a)]
    simp [max_assoc]

theorem init_le_foldl_max (l : List Value) (r : Value) : r ≤ l.foldl max r := by
  rw [foldl_max_init]; exact le_max_left _ _

theorem mem_le_foldl_max (l : List Value) (r v : Value) (hv : v ∈ l) :
    v ≤ l.foldl max r := by
  induction l generalizing r with
  | nil => simp at hv
  | cons a t ih =>
    simp only [List.foldl_cons]
    rcases List.mem_cons.1 hv with h | h
    · subst h
      exact le_trans (le_max_right r v) (init_le_foldl_max t _)
    · exact ih _ h

theorem foldl_max_mem (l : List Value) (r : Value) :
    l.foldl max r = r ∨ l.foldl max r ∈ l := by
  induction l generalizing r with
  | nil => simp
  | cons a t ih =>
    simp only [List.foldl_cons]
    rcases ih (max r a) with h | h
    · rw [h]
      rcases max_choice r a with h2 | h2
      · left; exact h2
      · right; rw [h2]; exact List.mem_cons_self _ _
    · right; exact List.mem_cons_of_mem _ h

theorem mem_entries_iff (x : Nat → Value) (n : Int) (v : Value) :
    v ∈ entries x n ↔ ∃ i : Nat, (i : Int) < n ∧ x i = v := by
  simp only [entries, List.mem_map, List.mem_range]
  constructor
  · rintro ⟨i, hi, rfl⟩
    exact ⟨i, by omega, rfl⟩
  · rintro ⟨i, hi, rfl⟩
    exact ⟨i, by omega, rfl⟩

theorem mmax_some (x : Nat → Value) (n d : Int) :
    casadi_mmax (some x) n d = (entries x n).foldl max (if d ≠ 0 then ⊥ else 0) := by
  unfold casadi_mmax
  simp only [negInf]
  rw [vfmax_eq_foldl]

theorem mmax_some_dense (x : Nat → Value) (n d : Int) (hd : d ≠ 0) :
    casadi_mmax (some x) n d = (entries x n).foldl max ⊥ := by
  rw [mmax_some, if_pos hd]

theorem mmax_some_sparse (x : Nat → Value) (n : Int) :
    casadi_mmax (some x) n 0 = (entries x n).foldl max 0 := by
  rw [mmax_some]; simp

theorem mmax_none (n d : Int) :
    casadi_mmax none n d = if d ≠ 0 then negInf else 0 := rfl

/-- C1: in dense mode (non-zero `is_dense`), for a non-null array and `n ≥ 1`, the result of
`casadi_mmax` is greater than or equal to each of `x[0..n-1]` and equal to one of them. -/
theorem casadi_mmax_dense_is_maximum (x : Nat → Value) (n d : Int)
    (hn : 1 ≤ n) (hd : d ≠ 0) :
    (∀ i : Nat, (i : Int) < n → x i ≤ casadi_mmax (some x) n d) ∧
    ∃ i : Nat, (i : Int) < n ∧ casadi_mmax (some x) n d = x i := by
  rw [mmax_some_dense x n d hd]
  have hge : ∀ i : Nat, (i : Int) < n → x i ≤ (entries x n).foldl max ⊥ := fun i hi =>
    mem_le_foldl_max _ _ _ ((mem_entries_iff x n (x i)).2 ⟨i, hi, rfl⟩)
  refine ⟨hge, ?_⟩
  rcases foldl_max_mem (entries x n) ⊥ with h | h
  · refine ⟨0, by omega, ?_⟩
    have h0 := hge 0 (by omega)
    rw [h] at h0 ⊢
    exact (le_bot_iff.1 h0).symm
  · obtain ⟨i, hi, hx⟩ := (mem_entries_iff x n _).1 h
    exact ⟨i, hi, hx.symm⟩

/-- Witness for C1 on the sample array `[-2, -1, ...]` with `n = 2`, `is_dense = 1`. -/
theorem casadi_mmax_dense_is_maximum_witness :
    (1 : Int) ≤ 2 ∧ (1 : Int) ≠ 0 ∧
    (∀ i : Nat, (i : Int) < 2 → sampleArray i ≤ casadi_mmax (some sampleArray) 2 1) ∧
    ∃ i : Nat, (i : Int) < 2 ∧ casadi_mmax (some sampleArray) 2 1 = sampleArray i :=
  ⟨by decide, by decide, casadi_mmax_dense_is_maximum sampleArray 2 1 (by decide) (by decide)⟩

/-- C2: zero-element convention for a sparse array (`is_dense = 0`): for a non-null array
the result is the maximum of `0` and the entries `x[0..n-1]`; it is never negative, it is
`0` when every stored entry is negative or when `n = 0`, and it is the largest stored entry
when that entry is positive. (The statement holds for every `n`; a negative `n` reads no
entry.) -/
theorem casadi_mmax_sparse_zero_convention (x : Nat → Value) (n : Int) :
    IsGreatest (insert (0 : Value) {v | ∃ i : Nat, (i : Int) < n ∧ x i = v})
      (casadi_mmax (some x) n 0) ∧
    0 ≤ casadi_mmax (some x) n 0 ∧
    ((∀ i : Nat, (i : Int) < n → x i < 0) → casadi_mmax (some x) n 0 = 0) ∧
    (n = 0 → casadi_mmax (some x) n 0 = 0) ∧
    (∀ j : Nat, (j : Int) < n → (∀ i : Nat, (i : Int) < n → x i ≤ x j) → 0 < x j →
      casadi_mmax (some x) n 0 = x j) := by
  rw [mmax_some_sparse]
  have hmem : (entries x n).foldl max 0 = 0 ∨
      ∃ i : Nat, (i : Int) < n ∧ x i = (entries x n).foldl max 0 := by
    rcases foldl_max_mem (entries x n) 0 with h | h
    · exact Or.inl h
    · exact Or.inr ((mem_entries_iff x n _).1 h)
  have hge : ∀ i : Nat, (i : Int) < n → x i ≤ (entries x n).foldl max 0 := fun i hi =>
    mem_le_foldl_max _ _ _ ((mem_entries_iff x n (x i)).2 ⟨i, hi, rfl⟩)
  have h0 : (0 : Value) ≤ (entries x n).foldl max 0 := init_le_foldl_max _ _
  refine ⟨⟨?_, ?_⟩, h0, ?_, ?_, ?_⟩
  · rcases hmem with h | h
    · exact Or.inl h
    · exact Or.inr h
  · rintro v (hv | ⟨i, hi, rfl⟩)
    · rw [hv]; exact h0
    · exact hge i hi
  · intro hneg
    rcases hmem with h | ⟨i, hi, hx⟩
    · exact h
    · exact absurd (hx ▸ hneg i hi) (not_lt.2 h0)
  · intro hn
    rcases hmem with h | ⟨i, hi, _⟩
    · exact h
    · omega
  · intro j hj hmax hpos
    apply le_antisymm _ (hge j hj)
    rcases hmem with h | ⟨i, hi, hx⟩
    · rw [h]; exact le_of_lt hpos
    · rw [← hx]; exact hmax i hi

/-- C3 (counterexample): with an absent array and a non-zero `is_dense` the result is minus
infinity, not `0`. -/
theorem casadi_mmax_null_dense_not_zero :
    casadi_mmax none 3 1 = negInf ∧ casadi_mmax none 3 1 ≠ 0 := by
  decide

/-- C3 (amended): for every `n`, `casadi_mmax` called with an absent array returns `0` when
`is_dense` is zero and minus infinity when `is_dense` is non-zero. -/
theorem casadi_mmax_null (n d : Int) :
    (d = 0 → casadi_mmax none n d = 0) ∧ (d ≠ 0 → casadi_mmax none n d = negInf) := by
  rw [mmax_none]
  constructor
  · intro h; simp [h]
  · intro h; simp [h]

/-- C8: the sparse result is the dense result clamped below at zero: for a non-null array
and a non-zero flag `d`, `casadi_mmax(x, n, 0) = max(0, casadi_mmax(x, n, d))`; hence the
sparse result is never smaller than the dense result, and the two agree exactly when the
dense result is non-negative. (The statement holds for every `n`.) -/
theorem casadi_mmax_sparse_eq_clamped_dense (x : Nat → Value) (n d : Int) (hd : d ≠ 0) :
    casadi_mmax (some x) n 0 = max 0 (casadi_mmax (some x) n d) ∧
    casadi_mmax (some x) n d ≤ casadi_mmax (some x) n 0 ∧
    (casadi_mmax (some x) n 0 = casadi_mmax (some x) n d ↔ 0 ≤ casadi_mmax (some x) n d) := by
  have h : casadi_mmax (some x) n 0 = max 0 (casadi_mmax (some x) n d) := by
    rw [mmax_some_sparse, mmax_some_dense x n d hd, foldl_max_init]
  refine ⟨h, ?_, ?_⟩
  · rw [h]; exact le_max_right _ _
  · rw [h]; exact max_eq_right_iff

/-- Witness for C8 on the sample array with `n = 2` and `d = 1`. -/
theorem casadi_mmax_sparse_eq_clamped_dense_witness :
    (1 : Int) ≠ 0 ∧
    casadi_mmax (some sampleArray) 2 0 = max 0 (casadi_mmax (some sampleArray) 2 1) ∧
    casadi_mmax (some sampleArray) 2 1 ≤ casadi_mmax (some sampleArray) 2 0 ∧
    (casadi_mmax (some sampleArray) 2 0 = casadi_mmax (some sampleArray) 2 1 ↔
      0 ≤ casadi_mmax (some sampleArray) 2 1) :=
  ⟨by decide, casadi_mmax_sparse_eq_clamped_dense sampleArray 2 1 (by decide)⟩

/-- C9: `casadi_mmax` does not depend on the order of the entries: for every `n`, every
`is_dense` and every two non-null arrays whose first `n` entries are permutations of each
other, the results are equal; in particular entries at index `n` and beyond have no
influence (two arrays that agree on the indices below `n` give the same result). -/
theorem casadi_mmax_perm_invariant (x y : Nat → Value) (n d : Int)
    (hperm : (entries x n).Perm (entries y n)) :
    casadi_mmax (some x) n d = casadi_mmax (some y) n d ∧
    ∀ z : Nat → Value, (∀ i : Nat, (i : Int) < n → z i = x i) →
      casadi_mmax (some z) n d = casadi_mmax (some x) n d := by
  have key : ∀ a b : Nat → Value, (entries a n).Perm (entries b n) →
      casadi_mmax (some a) n d = casadi_mmax (some b) n d := by
    intro a b hab
    rw [mmax_some, mmax_some]
    haveI : RightCommutative (max : Value → Value → Value) := 
      ⟨fun a b c => by rw [max_assoc, max_comm b c, ← max_assoc]⟩
    exact hab.foldl_eq _
  refine ⟨key x y hperm, fun z hz => key z x ?_⟩
  have : entries z n = entries x n := by
    unfold entries
    apply List.map_congr_left
    intro i hi
    exact hz i (by have := List.mem_range.1 hi; omega)
  rw [this]

/-- Witness for C9: the sample array and the array with its first two entries exchanged
(and a different tail), with `n = 2` and `is_dense = 0`. -/
theorem casadi_mmax_perm_invariant_witness :
    (entries sampleArray 2).Perm (entries sampleArraySwapped 2) ∧
    casadi_mmax (some sampleArray) 2 0 = casadi_mmax (some sampleArraySwapped) 2 0 ∧
    ∀ z : Nat → Value, (∀ i : Nat, (i : Int) < 2 → z i = sampleArray i) →
      casadi_mmax (some z) 2 0 = casadi_mmax (some sampleArray) 2 0 :=
  ⟨List.Perm.swap _ _ _,
   casadi_mmax_perm_invariant sampleArray sampleArraySwapped 2 0 (List.Perm.swap _ _ _)⟩

/-- C10: an absent array is treated exactly like an empty one: for every `n`, every
`is_dense` and every non-null array `y`, `casadi_mmax(null, n, is_dense)` equals
`casadi_mmax(y, 0, is_dense)`, this value being the initial value of the reduction (minus
infinity when `is_dense` is non-zero, `0` when it is zero), independent of `n`. -/
theorem casadi_mmax_null_eq_empty (y : Nat → Value) (n d : Int) :
    casadi_mmax none n d = casadi_mmax (some y) 0 d ∧
    casadi_mmax none n d = (if d ≠ 0 then negInf else 0) ∧
    ∀ m : Int, casadi_mmax none m d = casadi_mmax none n d := by
  refine ⟨?_, rfl, fun _ => rfl⟩
  rw [mmax_some, mmax_none]
  simp [entries, negInf]

/-! ## Interpolation builder -/

theorem lagrangeBasis_eq_eval {K : Type} [Field K] (t : List K) (i : Nat) (z : K) :
    lagrangeBasis t i z =
      (Lagrange.basis (Finset.range t.length) (fun j => t.getD j 0) i).eval z := by
  unfold lagrangeBasis
  rw [Lagrange.basis, Polynomial.eval_prod]
  have hnd : ((List.range t.length).filter (fun j => j ≠ i)).Nodup :=
    (List.nodup_range _).filter _
  rw [← List.prod_toFinset _ hnd]
  have hset : ((List.range t.length).filter (fun j => j ≠ i)).toFinset
      = (Finset.range t.length).erase i := by
    ext j
    simp [and_comm]
  rw [hset]
  refine Finset.prod_congr rfl (fun j _ => ?_)
  simp [Lagrange.basisDivisor, div_eq_mul_inv, mul_comm]

theorem sum_map_range {K : Type} [Field K] (n : Nat) (g : Nat → K) :
    ((List.range n).map g).sum = ∑ i in Finset.range n, g i := by
  rw [← List.sum_toFinset _ (List.nodup_range n)]
  congr 1
  ext j; simp

theorem nodes_injOn {K : Type} [LinearOrderedField K] (tau : List K)
    (h : ValidPointSet tau) :
    Set.InjOn (fun j => (0 :: tau).getD j 0) (Finset.range (0 :: tau).length : Set Nat) := by
  have hs : (0 :: tau).Sorted (· < ·) :=
    List.sorted_cons.2 ⟨fun b hb => (h.2.1 b hb).1, h.2.2⟩
  have hnd : (0 :: tau).Nodup := hs.nodup
  intro a ha b hb hab
  have ha' : a < (0 :: tau).length := by simpa using ha
  have hb' : b < (0 :: tau).length := by simpa using hb
  simp only [] at hab
  rw [List.getD_eq_getElem _ _ ha', List.getD_eq_getElem _ _ hb'] at hab
  exact (hnd.getElem_inj_iff).1 hab

/-- C4: for every valid point set (`order ≥ 1` reals in `(0,1]`, strictly increasing), the
end-weight vector `D` produced by `collocationInterpolators`, with `D[i] = L_i(1)` for the
Lagrange basis over the nodes `0, t_1, ..., t_order`, sums to exactly 1. -/
theorem collocationInterpolators_D_sum_eq_one {K : Type} [LinearOrderedField K]
    (tau : List K) (h : ValidPointSet tau) : (collocationInterpolators tau).2.sum = 1 := by
  unfold collocationInterpolators
  simp only []
  rw [sum_map_range]
  have h1 := Lagrange.sum_basis (nodes_injOn tau h) (by simp)
  have h2 := congrArg (Polynomial.eval 1) h1
  rw [Polynomial.eval_finset_sum, Polynomial.eval_one] at h2
  exact Eq.trans (Finset.sum_congr rfl (fun i _ => lagrangeBasis_eq_eval _ i 1)) h2

/-- Witness for C4 on the two-point Radau set `1/3, 1`. -/
theorem collocationInterpolators_D_sum_eq_one_witness :
    ValidPointSet radauOrder2 ∧ (collocationInterpolators radauOrder2).2.sum = 1 :=
  ⟨by norm_num [ValidPointSet, radauOrder2],
   collocationInterpolators_D_sum_eq_one radauOrder2 (by norm_num [ValidPointSet, radauOrder2])⟩

/-! ## Explicit Runge-Kutta -/

theorem stageSum_zero {K V : Type} [Field K] [AddCommGroup V] [Module K V]
    (c : List K) (k : List V) (hk : ∀ v ∈ k, v = 0) : stageSum c k = 0 := by
  unfold stageSum
  apply List.sum_eq_zero
  intro v hv
  obtain ⟨ck, hck, rfl⟩ := List.mem_map.1 hv
  rw [hk ck.2 (List.of_mem_zip hck).2, smul_zero]

theorem rkStages_zero {K V P : Type} [Field K] [AddCommGroup V] [Module K V]
    (p : P) (dt : K) (x : V) (A : List (List K)) (k : List V) (hk : ∀ v ∈ k, v = 0) :
    ∀ v ∈ rkStages (fun (_ : V) (_ : P) => (0 : V)) p dt x A k, v = 0 := by
  induction A generalizing k with
  | nil => simpa [rkStages] using hk
  | cons row rows ih =>
    simp only [rkStages]
    apply ih
    intro v hv
    rcases List.mem_append.1 hv with h | h
    · exact hk v h
    · simpa using h

theorem rkStep_zero {K V P : Type} [Field K] [AddCommGroup V] [Module K V]
    (tab : ButcherTableau K) (p : P) (dt : K) (x : V) :
    rkStep tab (fun (_ : V) (_ : P) => (0 : V)) p dt x = x := by
  unfold rkStep
  rw [stageSum_zero _ _ (rkStages_zero p dt x tab.A [] (by simp)), smul_zero, add_zero]

/-- C6: the explicit Runge-Kutta integrator built by `simpleRK` with `N = 1` and `order = 4`
from the zero right-hand side `f(x,p) = 0` is constructed successfully and returns
`xf = x0` for every initial state `x0`, every parameter `p` and every step size `h`. -/
theorem simpleRK_zero_rhs_fixed_point {K V P : Type} [Field K] [AddCommGroup V] [Module K V] :
    ∃ g : V → P → K → V,
      simpleRK (fun (_ : V) (_ : P) => (0 : V)) 1 4 = Except.ok g ∧
      ∀ (x0 : V) (p : P) (h : K), g x0 p h = x0 := by
  refine ⟨_, rfl, ?_⟩
  intro x0 p h
  simp [rkStep_zero]

/-! ## Root locator: scheme dispatch -/

/-- C7: for every positive order, `collocationPoints` fails with `UnknownSchemeError`
whenever the scheme name is neither `radau` nor `legendre` (for example `midpoint`), and
does not fail with that error for the two recognised names. -/
theorem collocationPoints_unknown_scheme {K : Type}
    (roots : CollocationPoints → Int → Option (List K)) (order : Int) (_horder : 0 < order) :
    (∀ scheme : String, scheme ≠ "radau" → scheme ≠ "legendre" →
      collocationPoints roots order scheme = Except.error Error.UnknownSchemeError) ∧
    collocationPoints roots order "midpoint" = Except.error Error.UnknownSchemeError ∧
    collocationPoints roots order "radau" ≠ Except.error Error.UnknownSchemeError ∧
    collocationPoints roots order "legendre" ≠ Except.error Error.UnknownSchemeError := by
  have hu : ∀ scheme : String, scheme ≠ "radau" → scheme ≠ "legendre" →
      collocationPoints roots order scheme = Except.error Error.UnknownSchemeError := by
    intro scheme h1 h2
    simp [collocationPoints, schemeOfName, h1, h2]
  refine ⟨hu, hu _ (by decide) (by decide), ?_, ?_⟩
  · intro h
    cases hr : roots CollocationPoints.RADAU order <;>
      simp [collocationPoints, schemeOfName, hr] at h
  · intro h
    cases hr : roots CollocationPoints.LEGENDRE order <;>
      simp [collocationPoints, schemeOfName, hr] at h

/-- Witness for C7 at order 3 with a root locator that never converges. -/
theorem collocationPoints_unknown_scheme_witness :
    (0 : Int) < 3 ∧
    (∀ scheme : String, scheme ≠ "radau" → scheme ≠ "legendre" →
      collocationPoints noRoots 3 scheme = Except.error Error.UnknownSchemeError) ∧
    collocationPoints noRoots 3 "midpoint" = Except.error Error.UnknownSchemeError ∧
    collocationPoints noRoots 3 "radau" ≠ Except.error Error.UnknownSchemeError ∧
    collocationPoints noRoots 3 "legendre" ≠ Except.error Error.UnknownSchemeError :=
  ⟨by decide, collocationPoints_unknown_scheme noRoots 3 (by decide)⟩

end Casadi
